import Mathlib

/-!
Verification of the author-reconciliation, generation-pipeline and batch-
orchestration core of the modulabs result site.

The TypeScript source (src/app/api/generate/route.ts and
src/app/admin/page.tsx) is shallowly embedded: every definition below is a
direct translation of the function of the same name in the source.  Strings
are modelled as Lean `String`/`List Char`; JavaScript `undefined` for an
optional field becomes `Option`; JavaScript truthiness of a string (nonempty)
is made explicit.  `JSON.parse` and the network collaborators are the only
external points; they enter as explicit parameters.
-/

/-- JavaScript whitespace (`\s`): space, tab, line terminators, NBSP and the
Unicode space separators. -/
def isJsSpace (c : Char) : Bool :=
  c = ' ' || c = '\t' || c = '\n' || c = '\r' ||
  c.val = 11 || c.val = 12 || c.val = 0xa0 || c.val = 0x1680 ||
  (0x2000 ≤ c.val && c.val ≤ 0x200a) ||
  c.val = 0x2028 || c.val = 0x2029 || c.val = 0x202f ||
  c.val = 0x205f || c.val = 0x3000 || c.val = 0xfeff

/-- Drop leading JS whitespace. -/
def trimLeftL (l : List Char) : List Char := l.dropWhile isJsSpace

/-- Drop trailing JS whitespace. -/
def trimRightL (l : List Char) : List Char :=
  ((l.reverse).dropWhile isJsSpace).reverse

/-- `String.prototype.trim`. -/
def jsTrimL (l : List Char) : List Char := trimRightL (trimLeftL l)

def jsTrim (s : String) : String := ⟨jsTrimL s.data⟩

/-- `replace(/\s+/g, ' ')`: collapse every whitespace run to one space.
The flag records whether the previous character was part of a run. -/
def collapseWsAux : Bool → List Char → List Char
  | _, [] => []
  | prev, c :: rest =>
    if isJsSpace c then
      if prev then collapseWsAux true rest
      else ' ' :: collapseWsAux true rest
    else c :: collapseWsAux false rest

def collapseWsL (l : List Char) : List Char := collapseWsAux false l

def collapseWs (s : String) : String := ⟨collapseWsL s.data⟩

/-- ASCII lowercase, as applied by `toLowerCase` to the ASCII range (the
Korean characters appearing in the source have no case). -/
def lowerL (l : List Char) : List Char := l.map Char.toLower

def lowerStr (s : String) : String := ⟨lowerL s.data⟩

/-- `normalizeAuthorKey`: `name.trim().toLowerCase().replace(/\s+/g, ' ')`. -/
def normalizeAuthorKey (name : String) : String :=
  collapseWs (lowerStr (jsTrim name))

/-- One author candidate (`AcademicProjectData['authors'][number]`).
`url`/`affiliation` are optional strings, `equalContribution` an optional
boolean; `none` is JavaScript `undefined`. -/
structure Author where
  name : String
  url : Option String := none
  affiliation : Option String := none
  equalContribution : Option Bool := none
deriving DecidableEq, Repr

/-- JS truthiness of an optional string: present and nonempty. -/
def truthyS : Option String → Bool
  | some s => s ≠ ""
  | none => false

/-- `a || b` on optional strings. -/
def jsOrS (a b : Option String) : Option String :=
  if truthyS a then a else b

/-- `mergeAuthor`: every field already set on `base` is kept, otherwise the
incoming value is used (`||` for the strings, a typeof-boolean test for
`equalContribution`). -/
def mergeAuthor (base incoming : Author) : Author :=
  { name := if base.name ≠ "" then base.name else incoming.name
    url := jsOrS base.url incoming.url
    affiliation := jsOrS base.affiliation incoming.affiliation
    equalContribution :=
      match base.equalContribution with
      | some b => some b
      | none => incoming.equalContribution }

/-- The `Map<string, number>` of `mergeAuthorSets`, as an association list;
`Map.set` overwrites an existing key, otherwise appends. -/
def mapSet (m : List (String × Nat)) (k : String) (v : Nat) :
    List (String × Nat) :=
  match m with
  | [] => [(k, v)]
  | (k', v') :: rest =>
    if k' = k then (k, v) :: rest else (k', v') :: mapSet rest k v

/-- `Map.get`. -/
def mapGet (m : List (String × Nat)) (k : String) : Option Nat :=
  match m with
  | [] => none
  | (k', v') :: rest => if k' = k then some v' else mapGet rest k

/-- State of the `mergeAuthorSets` loop: the `merged` array and the
`indexByKey` map. -/
abbrev MergeState := List Author × List (String × Nat)

/-- Body of the `for (const author of incoming)` loop of `mergeAuthorSets`. -/
def mergeStep (allowNewNames : Bool) (st : MergeState) (author : Author) :
    MergeState :=
  let name := jsTrim author.name
  if name = "" then st
  else
    let key := normalizeAuthorKey name
    let normalizedIncoming := { author with name := name }
    match mapGet st.2 key with
    | some index =>
      (st.1.set index
        (mergeAuthor (st.1.getD index { name := "" }) normalizedIncoming),
       st.2)
    | none =>
      if allowNewNames then
        (st.1 ++ [normalizedIncoming], mapSet st.2 key st.1.length)
      else st

/-- Initial `indexByKey`: `indexByKey.set(normalizeAuthorKey(merged[i].name), i)`
for each index in order (a later duplicate key overwrites the earlier one,
exactly as `Map.set` does). -/
def initIndex (merged : List Author) : List (String × Nat) :=
  (merged.enum.map fun p => (normalizeAuthorKey p.2.name, p.1)).foldl
    (fun m p => mapSet m p.1 p.2) []

/-- `mergeAuthorSets(base, incoming, {allowNewNames})`. -/
def mergeAuthorSets (base incoming : List Author)
    (allowNewNames : Bool := true) : List Author :=
  let merged :=
    (base.map fun a => { a with name := jsTrim a.name }).filter
      fun a => a.name ≠ ""
  (incoming.foldl (mergeStep allowNewNames) (merged, initIndex merged)).1

/-- `uniqueNonEmpty`: trims, drops blanks, dedupes case-insensitively
keeping first occurrences. -/
def uniqueNonEmptyAux (seen : List String) : List String → List String
  | [] => []
  | v :: rest =>
    let trimmed := jsTrim v
    if trimmed = "" then uniqueNonEmptyAux seen rest
    else
      let key := lowerStr trimmed
      if seen.contains key then uniqueNonEmptyAux seen rest
      else trimmed :: uniqueNonEmptyAux (key :: seen) rest

def uniqueNonEmpty (values : List String) : List String :=
  uniqueNonEmptyAux [] values

/-- `toAuthorObjectsFromNames`. -/
def toAuthorObjectsFromNames (names : List String) : List Author :=
  (uniqueNonEmpty names).map fun name => { name := name }

/-- `applyAffiliationByPosition(baseAuthors, manualAuthors)`. -/
def applyAffiliationByPosition (baseAuthors manualAuthors : List Author) :
    List Author :=
  if baseAuthors.length = 0 || manualAuthors.length = 0 then baseAuthors
  else if baseAuthors.length ≠ manualAuthors.length then baseAuthors
  else if ¬ manualAuthors.any (fun a => truthyS a.affiliation) then baseAuthors
  else
    baseAuthors.enum.map fun p =>
      let author := p.2
      if truthyS author.affiliation then author
      else
        match (manualAuthors.getD p.1 { name := "" }).affiliation with
        | some aff => if aff ≠ "" then { author with affiliation := some aff }
                      else author
        | none => author

/-! ## Batch CSV parsing and orchestration (src/app/admin/page.tsx) -/

/-- `parseCsvLine`: quote-aware CSV field splitter.  `inQuotes` toggles on a
quote, `""` inside quotes emits a literal quote, a comma outside quotes ends
the field, every field is trimmed on push.  (`fuel` only bounds the
recursion; every step consumes at least one character, so `fuel = length`
never runs out.) -/
def parseCsvLineAux : Nat → Bool → List Char → List String → List Char →
    List String
  | _, _, current, acc, [] => acc ++ [⟨jsTrimL current⟩]
  | 0, _, current, acc, l => acc ++ [⟨jsTrimL (current ++ l)⟩]
  | fuel + 1, inQuotes, current, acc, '"' :: rest =>
    if inQuotes then
      match rest with
      | '"' :: rest2 => parseCsvLineAux fuel true (current ++ ['"']) acc rest2
      | r => parseCsvLineAux fuel false current acc r
    else parseCsvLineAux fuel true current acc rest
  | fuel + 1, inQuotes, current, acc, ',' :: rest =>
    if inQuotes then parseCsvLineAux fuel true (current ++ [',']) acc rest
    else parseCsvLineAux fuel false [] (acc ++ [⟨jsTrimL current⟩]) rest
  | fuel + 1, inQuotes, current, acc, c :: rest =>
    parseCsvLineAux fuel inQuotes (current ++ [c]) acc rest

def parseCsvLine (line : String) : List String :=
  parseCsvLineAux line.data.length false [] [] line.data

/-- `normalizeCsvHeader`: trim, lowercase, drop whitespace/underscore/dash. -/
def normalizeCsvHeader (value : String) : String :=
  ⟨(lowerL (jsTrimL value.data)).filter
    fun c => ¬ (isJsSpace c || c = '_' || c = '-')⟩

/-- `text.split(/\r?\n/)`. -/
def splitNlAux (current : List Char) : List Char → List (List Char)
  | [] => [current.reverse]
  | '\r' :: '\n' :: rest => current.reverse :: splitNlAux [] rest
  | '\n' :: rest => current.reverse :: splitNlAux [] rest
  | c :: rest => splitNlAux (c :: current) rest

def splitCsvText (text : String) : List String :=
  (splitNlAux [] text.data).map fun l => ⟨l⟩

inductive BulkJobStatus where
  | queued | running | success | failed
deriving DecidableEq, Repr

/-- A `BulkJob` row; optional string fields are `undefined` when absent. -/
structure BulkJob where
  sourceType : String
  sourceUrl : String
  projectId : String
  authors : Option String := none
  institution : Option String := none
  venue : Option String := none
  researchYear : Option String := none
  pdfFileName : Option String := none
  status : BulkJobStatus
  message : Option String := none
  generatedTitle : Option String := none
deriving DecidableEq, Repr

/-- `x || undefined` for a string field. -/
def strOrUndef (s : String) : Option String :=
  if s = "" then none else some s

/-- `findValue(row, keys)`: the first header key present in the index map
wins, and its cell is returned trimmed even when empty. -/
def findValue (headerIndex : List (String × Nat)) (row : List String)
    (keys : List String) : String :=
  match keys with
  | [] => ""
  | key :: rest =>
    match mapGet headerIndex key with
    | some idx =>
      if idx < row.length then jsTrim (row.getD idx "")
      else findValue headerIndex row rest
    | none => findValue headerIndex row rest

/-- Per-row body of the `lines.slice(1).forEach` loop of `parseBulkCsv`.
State: seen project ids, errors, jobs. -/
def parseBulkRow (headerIndex : List (String × Nat))
    (st : List String × List String × List BulkJob) (p : Nat × String) :
    List String × List String × List BulkJob :=
  let (seen, errors, jobs) := st
  let rowNumber := p.1 + 2
  let columns := parseCsvLine p.2
  let sourceType := lowerStr (findValue headerIndex columns ["sourcetype"])
  let sourceUrl := findValue headerIndex columns ["sourceurl", "url"]
  let projectId := findValue headerIndex columns ["projectid", "id"]
  let authors := findValue headerIndex columns ["authors"]
  let institution := findValue headerIndex columns ["institution"]
  let venue := findValue headerIndex columns ["venue"]
  let researchYear := findValue headerIndex columns ["researchyear", "year"]
  let pdfFileName := findValue headerIndex columns ["pdffilename", "filename", "file"]
  if ¬ ["pdf", "github", "youtube"].contains sourceType then
    (seen, errors ++ [toString rowNumber ++ "행: sourceType은 pdf/github/youtube 중 하나여야 합니다."], jobs)
  else if projectId = "" then
    (seen, errors ++ [toString rowNumber ++ "행: projectId는 필수입니다."], jobs)
  else if seen.contains projectId then
    (seen, errors ++ [toString rowNumber ++ "행: projectId(" ++ projectId ++ ")가 중복되었습니다."], jobs)
  else
    let seen := seen ++ [projectId]
    if sourceType ≠ "pdf" && sourceUrl = "" then
      (seen, errors ++ [toString rowNumber ++ "행: " ++ sourceType ++ " 타입은 sourceUrl이 필수입니다."], jobs)
    else if sourceType = "pdf" && sourceUrl = "" && pdfFileName = "" then
      (seen, errors ++ [toString rowNumber ++ "행: pdf 타입은 sourceUrl 또는 pdfFileName이 필요합니다."], jobs)
    else
      (seen, errors,
       jobs ++ [{ sourceType := sourceType, sourceUrl := sourceUrl,
                  projectId := projectId,
                  authors := strOrUndef authors,
                  institution := strOrUndef institution,
                  venue := strOrUndef venue,
                  researchYear := strOrUndef researchYear,
                  pdfFileName := strOrUndef pdfFileName,
                  status := BulkJobStatus.queued }])

/-- `parseBulkCsv(text)`: returns `{jobs, errors}`. -/
def parseBulkCsv (text : String) : List BulkJob × List String :=
  let lines := ((splitCsvText text).map jsTrim).filter fun l => l.length > 0
  if lines.length < 2 then
    ([], ["CSV는 헤더 포함 2줄 이상이어야 합니다."])
  else
    let headers := (parseCsvLine (lines.getD 0 "")).map normalizeCsvHeader
    let headerIndex := headers.enum.foldl
      (fun m p => mapSet m p.2 p.1) []
    let st := (lines.drop 1).enum.foldl (parseBulkRow headerIndex) ([], [], [])
    (st.2.2, st.2.1)

/-- `handleParseBulkCsv`: on any validation error, the error text is joined
and **no jobs are stored** (`setBulkJobs([])`); otherwise the parsed jobs are
stored and the error is cleared.  Result: `(bulkCsvError, bulkJobs)`. -/
def handleParseBulkCsv (text : String) : Option String × List BulkJob :=
  let parsed := parseBulkCsv text
  if parsed.2.length > 0 then
    (some (String.intercalate "\n" parsed.2), [])
  else
    (none, parsed.1)

/-- The re-queue step of `runBulkGeneration`: jobs whose projectId is among
the selected jobs are reset to `queued` with message and title cleared. -/
def requeueJobs (jobs : List BulkJob) (failedOnly : Bool) : List BulkJob :=
  let jobsToRun :=
    if failedOnly then jobs.filter fun j => j.status = BulkJobStatus.failed
    else jobs
  let jobIds := jobsToRun.map fun j => j.projectId
  jobs.map fun job =>
    if jobIds.contains job.projectId then
      { job with status := BulkJobStatus.queued, message := none,
                 generatedTitle := none }
    else job

/-- `workerCount = Math.max(1, Math.min(3, bulkConcurrency, queue.length))`. -/
def effectiveWorkerCount (concurrency pending : Nat) : Nat :=
  max 1 (min 3 (min concurrency pending))

/-- State of the worker pool: the shared queue, one slot per worker holding
the job it is currently running, and the finished jobs. -/
structure PoolState where
  queue : List String
  workers : List (Option String)
  done : List String
deriving DecidableEq, Repr

/-- Jobs simultaneously in `running` state: one per busy worker. -/
def runningCount (s : PoolState) : Nat :=
  (s.workers.filter Option.isSome).length

/-- Interleaved execution of the worker loops of `runBulkGeneration`:
an idle worker atomically pops the head of the shared queue and marks the
job running; a busy worker finishes its job (success or failure) and
becomes idle.  `queue.shift()` hands each job to exactly one worker. -/
inductive PoolStep : PoolState → PoolState → Prop where
  | pop (s : PoolState) (w : Nat) (j : String) (rest : List String)
      (hw : w < s.workers.length)
      (hidle : s.workers.get ⟨w, hw⟩ = none)
      (hq : s.queue = j :: rest) :
      PoolStep s ⟨rest, s.workers.set w (some j), s.done⟩
  | finish (s : PoolState) (w : Nat) (j : String)
      (hw : w < s.workers.length)
      (hbusy : s.workers.get ⟨w, hw⟩ = some j) :
      PoolStep s ⟨s.queue, s.workers.set w none, j :: s.done⟩

/-- Initial pool state for a batch run: all selected jobs queued and
`workerCount` idle workers. -/
def initPool (jobs : List String) (concurrency : Nat) : PoolState :=
  ⟨jobs, List.replicate (effectiveWorkerCount concurrency jobs.length) none, []⟩

/-- All states a batch run can pass through. -/
def poolReachable (jobs : List String) (concurrency : Nat)
    (s : PoolState) : Prop :=
  Relation.ReflTransGen PoolStep (initPool jobs concurrency) s

/-! ## Generation pipeline (POST of src/app/api/generate/route.ts)

The pipeline is modelled from the point where the content generator has
returned its text.  `JSON.parse` (plus field extraction) is the one runtime
service that enters as an explicit parameter `parse`; everything around it is
translated from the handler.  Fields of the response that no claim touches
(carousel, links, bibtex, ...) are projected away. -/

def isBacktick (c : Char) : Bool := c.val = 96

def dropOneNl : List Char → List Char
  | '\n' :: r => r
  | r => r

/-- `text.replace(/```json\n?/g, '')` (backtick = code fence character;
`fuel = length` never runs out). -/
def removeJsonFencesF : Nat → List Char → List Char
  | _, [] => []
  | 0, l => l
  | fuel + 1, b1 :: b2 :: b3 :: 'j' :: 's' :: 'o' :: 'n' :: rest =>
    if isBacktick b1 && isBacktick b2 && isBacktick b3 then
      removeJsonFencesF fuel (dropOneNl rest)
    else
      b1 :: removeJsonFencesF fuel (b2 :: b3 :: 'j' :: 's' :: 'o' :: 'n' :: rest)
  | fuel + 1, c :: rest => c :: removeJsonFencesF fuel rest

def removeJsonFences (l : List Char) : List Char :=
  removeJsonFencesF l.length l

/-- `text.replace(/```\n?/g, '')`. -/
def removeAllFencesF : Nat → List Char → List Char
  | _, [] => []
  | 0, l => l
  | fuel + 1, b1 :: b2 :: b3 :: rest =>
    if isBacktick b1 && isBacktick b2 && isBacktick b3 then
      removeAllFencesF fuel (dropOneNl rest)
    else b1 :: removeAllFencesF fuel (b2 :: b3 :: rest)
  | fuel + 1, c :: rest => c :: removeAllFencesF fuel rest

def removeAllFences (l : List Char) : List Char :=
  removeAllFencesF l.length l

/-- The clean-up applied to the raw generator text before JSON extraction. -/
def cleanupGeneratorText (text : String) : String :=
  jsTrim ⟨removeAllFences (removeJsonFences text.data)⟩

/-- `text.match(/\{[\s\S]*\})/`: greedy — from the first opening brace to the
last closing brace, provided the former comes first. -/
def extractJsonCandidate (l : List Char) : Option (List Char) :=
  match l.findIdx? (fun c => c.val = 0x7b) with
  | none => none
  | some i =>
    match (l.reverse.findIdx? fun c => c.val = 0x7d) with
    | none => none
    | some krev =>
      let j := l.length - 1 - krev
      if i < j then some ((l.drop i).take (j - i + 1)) else none

/-- Characters removed inside quoted segments
(`[\x00-\x08\x0B-\x0C\x0E-\x1F\x7F]`). -/
def isCtrlRemovable (c : Char) : Bool :=
  c.val ≤ 8 || c.val = 11 || c.val = 12 ||
  (14 ≤ c.val && c.val ≤ 31) || c.val = 127

/-- `\\"` → `"`. -/
def unescapeQuotesF : Nat → List Char → List Char
  | _, [] => []
  | 0, l => l
  | fuel + 1, '\\' :: '"' :: rest => '"' :: unescapeQuotesF fuel rest
  | fuel + 1, c :: rest => c :: unescapeQuotesF fuel rest

def unescapeQuotes (l : List Char) : List Char :=
  unescapeQuotesF l.length l

/-- The per-quoted-segment sanitizer of the JSON repair: drop stray control
characters, escape literal newlines and tabs, unescape `\\"`. -/
def sanitizeQuoted (content : List Char) : List Char :=
  unescapeQuotes
    ((content.filter fun c => ¬ isCtrlRemovable c).flatMap fun c =>
      if c = '\n' then ['\\', 'n']
      else if c = '\t' then ['\\', 't']
      else [c])

/-- `jsonStr.replace(/"([^"]*?)"/g, ...)`: each complete pair of quotes has
its (quote-free) content sanitized; a final unmatched quote is left as is. -/
def quoteFixF : Nat → List Char → List Char
  | _, [] => []
  | 0, l => l
  | fuel + 1, c :: rest =>
    if c = '"' then
      match rest.findIdx? (fun d => d = '"') with
      | some k =>
        '"' :: (sanitizeQuoted (rest.take k) ++
          '"' :: quoteFixF fuel (rest.drop (k + 1)))
      | none => c :: rest
    else c :: quoteFixF fuel rest

def quoteFix (l : List Char) : List Char := quoteFixF l.length l

/-- `jsonStr.replace(/,\s*([}\]])/g, '$1')`: drop a comma (and the blank run
after it) that directly precedes a closing brace or bracket. -/
def trailingCommaFixF : Nat → List Char → List Char
  | _, [] => []
  | 0, l => l
  | fuel + 1, c :: rest =>
    if c = ',' then
      match rest.dropWhile isJsSpace with
      | b :: after =>
        if b.val = 0x7d || b = ']' then b :: trailingCommaFixF fuel after
        else ',' :: trailingCommaFixF fuel rest
      | [] => ',' :: trailingCommaFixF fuel rest
    else c :: trailingCommaFixF fuel rest

def trailingCommaFix (l : List Char) : List Char :=
  trailingCommaFixF l.length l

/-- The full JSON repair applied before `JSON.parse`. -/
def repairJson (l : List Char) : List Char :=
  trailingCommaFix (quoteFix l)

/-- The fields of the parsed generator payload that the claims touch.  An
author entry is either a bare string or an object. -/
structure GenData where
  title : Option String := none
  authors : Option (List (Sum String Author)) := none
  institution : Option String := none
  venue : Option String := none
  year : Option String := none
  abstract : Option String := none
deriving Repr, DecidableEq

/-- One entry of `normalizeGeneratedAuthors`' loop: a string entry is
trimmed and kept when nonempty; an object entry needs a nonempty trimmed
name, and url/affiliation are kept only when trim-truthy. -/
def normalizeGenEntry : Sum String Author → Option Author
  | Sum.inl s =>
    let name := jsTrim s
    if name = "" then none else some { name := name }
  | Sum.inr a =>
    let name := jsTrim a.name
    if name = "" then none
    else
      some { name := name
             url := match a.url with
               | some u => if jsTrim u ≠ "" then some (jsTrim u) else none
               | none => none
             affiliation := match a.affiliation with
               | some u => if jsTrim u ≠ "" then some (jsTrim u) else none
               | none => none
             equalContribution := a.equalContribution }

/-- `normalizeGeneratedAuthors`. -/
def normalizeGeneratedAuthors (authors : Option (List (Sum String Author))) :
    List Author :=
  match authors with
  | none => []
  | some l => mergeAuthorSets [] (l.filterMap normalizeGenEntry) true

/-- `a || d` where `a` is a possibly-undefined string. -/
def jsOrD (a : Option String) (d : String) : String :=
  match a with
  | some s => if s ≠ "" then s else d
  | none => d

/-- The request-level inputs of the POST handler that the modelled phase
uses.  `institutionReq`/`venueReq` may be absent from the JSON body. -/
structure GenRequest where
  projectId : String
  sourceType : String
  sourceUrl : String
  institutionReq : Option String := none
  venueReq : Option String := none
deriving Repr

/-- The fallback record synthesized in the `catch` of the JSON parse:
title from the project id, authors from the already-extracted or manual
sources (else a placeholder), abstract from the first 500 characters of the
raw generator text. -/
def fallbackRecord (req : GenRequest) (extractedPdfAuthorNames : List String)
    (fallbackManualAuthors : List Author) (nowYear : String)
    (cleanedText : String) : GenData :=
  { title := some (req.projectId ++ " Project")
    authors := some
      ((if req.sourceType = "pdf" && extractedPdfAuthorNames.length > 0 then
          toAuthorObjectsFromNames extractedPdfAuthorNames
        else if fallbackManualAuthors.length > 0 then fallbackManualAuthors
        else [{ name := "Author Name" }]).map Sum.inr)
    institution := some (jsOrD req.institutionReq "ModuLabs")
    venue := some (jsOrD req.venueReq "Publication Venue")
    year := some nowYear
    abstract := some ⟨cleanedText.data.take 500⟩ }

/-- Parse phase: clean the generator text, look for a brace-delimited JSON
candidate (its absence **throws**), repair it, and on `JSON.parse` failure
fall back to the synthesized record. -/
def parseGeneratorResponse (req : GenRequest)
    (extractedPdfAuthorNames : List String)
    (fallbackManualAuthors : List Author) (nowYear : String)
    (text : String) (parse : String → Option GenData) :
    Except String GenData :=
  let cleaned := cleanupGeneratorText text
  match extractJsonCandidate cleaned.data with
  | none => Except.error "AI 응답에서 JSON을 찾을 수 없습니다."
  | some candidate =>
    match parse ⟨repairJson candidate⟩ with
    | some d => Except.ok d
    | none =>
      Except.ok (fallbackRecord req extractedPdfAuthorNames
        fallbackManualAuthors nowYear cleaned)

/-- The roster-reconciliation chain run on the parsed (or fallback) data. -/
def finalAuthorsOf (req : GenRequest) (extractedPdfAuthorNames : List String)
    (fallbackManualAuthors manualAuthorObjects : List Author)
    (genData : GenData) : List Author :=
  let generatedAuthors := normalizeGeneratedAuthors genData.authors
  let fallbackPdfAuthors := toAuthorObjectsFromNames extractedPdfAuthorNames
  let fallbackAuthors :=
    if req.sourceType = "pdf" then
      if fallbackPdfAuthors.length > 0 then fallbackPdfAuthors
      else fallbackManualAuthors
    else fallbackManualAuthors
  let fallbackAuthors :=
    if req.sourceType = "pdf" then
      applyAffiliationByPosition
        (mergeAuthorSets fallbackAuthors manualAuthorObjects false)
        manualAuthorObjects
    else fallbackAuthors
  let enrichedBaseAuthors :=
    mergeAuthorSets fallbackAuthors manualAuthorObjects false
  let enrichedWithGenerated :=
    mergeAuthorSets enrichedBaseAuthors generatedAuthors false
  if enrichedWithGenerated.length > 0 then enrichedWithGenerated
  else if generatedAuthors.length > 0 then generatedAuthors
  else [{ name := "Author" }]

/-- The response fields (`responseData`) the claims inspect. -/
structure ResponseData where
  title : String
  authors : List Author
  institution : String
  venue : String
  year : String
  abstract : String
deriving Repr, DecidableEq

def buildResponseData (req : GenRequest)
    (extractedPdfAuthorNames : List String)
    (fallbackManualAuthors manualAuthorObjects : List Author)
    (nowYear : String) (genData : GenData) : ResponseData :=
  { title := jsOrD genData.title (req.projectId ++ " Project")
    authors := finalAuthorsOf req extractedPdfAuthorNames
      fallbackManualAuthors manualAuthorObjects genData
    institution := jsOrD genData.institution (jsOrD req.institutionReq "ModuLabs")
    venue := jsOrD genData.venue (jsOrD req.venueReq "Publication")
    year := jsOrD genData.year nowYear
    abstract := jsOrD genData.abstract "Abstract text here..." }

/-- HTTP-level outcome of the POST handler. -/
inductive ApiResult where
  | ok (payload : ResponseData) (message : String)
  | httpError (status : Nat) (error : String) (details : String)
deriving Repr, DecidableEq

/-- The tail of the POST handler, from the generator's returned text on.
The persist step (`saveMarkdownFile`) is wrapped in its own try/catch whose
handler only logs, so its outcome — `persistResult` — is discarded and the
success response is returned regardless; an error thrown earlier in the
`try` (such as the missing-JSON throw) is turned into a 500 response by the
outer catch. -/
def postGenerateTail (req : GenRequest)
    (extractedPdfAuthorNames : List String)
    (fallbackManualAuthors manualAuthorObjects : List Author)
    (nowYear : String) (text : String) (parse : String → Option GenData)
    (persistResult : Except String Unit) : ApiResult :=
  match parseGeneratorResponse req extractedPdfAuthorNames
      fallbackManualAuthors nowYear text parse with
  | Except.error e => ApiResult.httpError 500 "콘텐츠 생성 중 오류가 발생했습니다." e
  | Except.ok genData =>
    let responseData := buildResponseData req extractedPdfAuthorNames
      fallbackManualAuthors manualAuthorObjects nowYear genData
    match persistResult with
    | Except.ok _ => ApiResult.ok responseData "페이지가 자동으로 생성되었습니다."
    | Except.error _ => ApiResult.ok responseData "페이지가 자동으로 생성되었습니다."

/-! ## AuthorNameDetector (extractAuthorsFromPdfText and helpers)

The regular expressions of the source are unfolded into character-level
scanners.  JS `\w`/`\d`/`\S` and the case-insensitive flag act on ASCII;
string lengths count UTF-16 units, which coincide with characters for every
code point appearing here (all are in the BMP). -/

def isAsciiUpper (c : Char) : Bool := 'A' ≤ c && c ≤ 'Z'
def isAsciiLower (c : Char) : Bool := 'a' ≤ c && c ≤ 'z'
def isAsciiLetter (c : Char) : Bool := isAsciiUpper c || isAsciiLower c
def isDigitCh (c : Char) : Bool := '0' ≤ c && c ≤ '9'
def isWordChar (c : Char) : Bool := isAsciiLetter c || isDigitCh c || c = '_'
def isHangul (c : Char) : Bool := 0xac00 ≤ c.val && c.val ≤ 0xd7a3

/-- Case-insensitive (ASCII fold) prefix test; the pattern is given
pre-lowercased. -/
def ciIsPfx : List Char → List Char → Bool
  | [], _ => true
  | _ :: _, [] => false
  | p :: ps, c :: cs => (Char.toLower c = Char.toLower p) && ciIsPfx ps cs

def wordAtIdx (l : List Char) (i : Nat) : Bool := isWordChar (l.getD i ' ')

/-- `^word\b` (case-insensitive): prefix match plus a `\b` word boundary
after it — exactly one of the characters around position `w.length` is a
word character (positions past the end count as non-word). -/
def ciPfxWord (w : List Char) (l : List Char) : Bool :=
  ciIsPfx w l && (wordAtIdx l (w.length - 1) != wordAtIdx l w.length)

/-- `\bword\b` somewhere in the text (case-insensitive). -/
def hasWordAt (l : List Char) (w : List Char) (p : Nat) : Bool :=
  ciIsPfx w (l.drop p) &&
  (decide (p = 0) || !isWordChar (l.getD (p - 1) ' ')) &&
  !isWordChar (l.getD (p + w.length) ' ')

def containsWordCi (l : List Char) (w : List Char) : Bool :=
  (List.range (l.length + 1)).any fun p => hasWordAt l w p

/-- Literal (case-sensitive) substring test. -/
def containsLit (l : List Char) (w : List Char) : Bool :=
  (List.range (l.length + 1)).any fun p => w.isPrefixOf (l.drop p)

/-- Case-insensitive substring test. -/
def containsCiLit (l : List Char) (w : List Char) : Bool :=
  (List.range (l.length + 1)).any fun p => ciIsPfx w (l.drop p)

/-- `AUTHOR_NOISE_PATTERNS[0]`: the English noise vocabulary, word-bounded
(`keywords?` and `index terms?` expanded). -/
def noiseWordsEn : List String :=
  ["abstract", "introduction", "keyword", "keywords", "index term",
   "index terms", "university", "institute", "department", "laboratory",
   "school", "college", "conference", "journal", "figure", "table",
   "appendix", "copyright", "arxiv", "doi"]

/-- `AUTHOR_NOISE_PATTERNS[1]`: the Korean noise vocabulary, plain
substrings. -/
def noiseWordsKo : List String :=
  ["초록", "요약", "서론", "키워드", "대학교", "대학원", "연구소", "학과",
   "실험실", "저널", "학회", "그림", "표"]

/-- `hasAuthorNoise`. -/
def hasAuthorNoise (text : String) : Bool :=
  noiseWordsEn.any (fun w => containsWordCi text.data w.data) ||
  noiseWordsKo.any (fun w => containsLit text.data w.data)

/-- `AUTHOR_SECTION_STOP_PATTERNS[2]`: `^1\s*[\.\)]?\s*(introduction|서론)\b`. -/
def stopIntro (l : List Char) : Bool :=
  match l with
  | '1' :: rest =>
    let r1 := rest.dropWhile isJsSpace
    let r2 := match r1 with
      | c :: rr => if c = '.' || c = ')' then rr else r1
      | [] => r1
    let r3 := r2.dropWhile isJsSpace
    ["introduction", "서론"].any fun w => ciPfxWord w.data r3
  | _ => false

/-- A line matching one of the `AUTHOR_SECTION_STOP_PATTERNS`. -/
def stopPattern (line : String) : Bool :=
  (["abstract", "요약", "초록"].any fun w => ciPfxWord w.data line.data) ||
  (["keywords", "keyword", "key words", "key word", "index terms",
    "index term"].any fun w => ciPfxWord w.data line.data) ||
  stopIntro line.data

/-- A line (trimmed) matching one of the `AUTHOR_LINE_HARD_STOP_PATTERNS`. -/
def hardStop (line : String) : Bool :=
  let l := (jsTrim line).data
  (["figure", "fig.", "fig", "table", "appendix"].any fun w =>
    ciPfxWord w.data l) ||
  ciIsPfx "http://".data l || ciIsPfx "https://".data l ||
  ciPfxWord "copyright".data l

/-- `/\[[^\]]*\]/g → ' '`: a bracketed segment (up to the first closing
bracket) becomes a space; an opening bracket with no closer stays. -/
def removeBracketedF : Nat → List Char → List Char
  | _, [] => []
  | 0, l => l
  | fuel + 1, c :: rest =>
    if c = '[' then
      match rest.findIdx? (fun d => d = ']') with
      | some k => ' ' :: removeBracketedF fuel (rest.drop (k + 1))
      | none => c :: removeBracketedF fuel rest
    else c :: removeBracketedF fuel rest

def removeBracketed (l : List Char) : List Char :=
  removeBracketedF l.length l

/-- `/\([^)]*\)/g → ' '`. -/
def removeParensF : Nat → List Char → List Char
  | _, [] => []
  | 0, l => l
  | fuel + 1, c :: rest =>
    if c = '(' then
      match rest.findIdx? (fun d => d = ')') with
      | some k => ' ' :: removeParensF fuel (rest.drop (k + 1))
      | none => c :: removeParensF fuel rest
    else c :: removeParensF fuel rest

def removeParens (l : List Char) : List Char :=
  removeParensF l.length l

def isDagger (c : Char) : Bool := c = '†' || c = '‡' || c = '*'

def isPunctEdge (c : Char) : Bool :=
  c = ',' || c = ';' || c = ':' || c = '.' || c = '-'

/-- `normalizeAuthorToken`. -/
def normalizeAuthorToken (token : String) : String :=
  let l1 := removeBracketed token.data
  let l2 := l1.map fun c => if isDagger c then ' ' else c
  let l3 := removeParens l2
  let l4 := jsTrimL (collapseWsL l3)
  ⟨(((l4.dropWhile isPunctEdge).reverse.dropWhile isPunctEdge).reverse)⟩

/-- `name.split(/\s+/).filter(Boolean)`. -/
def wordsAux (current : List Char) (acc : List (List Char)) :
    List Char → List (List Char)
  | [] => if current.isEmpty then acc else acc ++ [current]
  | c :: rest =>
    if isJsSpace c then
      if current.isEmpty then wordsAux [] acc rest
      else wordsAux [] (acc ++ [current]) rest
    else wordsAux (current ++ [c]) acc rest

def wordsOf (l : List Char) : List (List Char) := wordsAux [] [] l

/-- `^(?:[A-Z]\.){1,3}$`. -/
def initialsPairs : Nat → List Char → Bool
  | n, [] => decide (1 ≤ n) && decide (n ≤ 3)
  | n, a :: '.' :: rest => isAsciiUpper a && initialsPairs (n + 1) rest
  | _, _ => false

def isInitialsPat (w : List Char) : Bool := initialsPairs 0 w

/-- `(?:[-'][A-Za-z]+)*$` after the leading `[A-Z][a-z]+`. -/
def capGroupsF : Nat → List Char → Bool
  | _, [] => true
  | 0, _ => false
  | fuel + 1, s :: rest =>
    (s = '-' || s = '\'') &&
    !(rest.takeWhile isAsciiLetter).isEmpty &&
    capGroupsF fuel (rest.dropWhile isAsciiLetter)

def capGroups (l : List Char) : Bool := capGroupsF l.length l

/-- `^[A-Z][a-z]+(?:[-'][A-Za-z]+)*$`. -/
def isCapWordPat (w : List Char) : Bool :=
  match w with
  | c :: d :: rest =>
    isAsciiUpper c && isAsciiLower d &&
    capGroups ((d :: rest).dropWhile isAsciiLower)
  | _ => false

/-- `^[A-Z][a-z]?\.$`. -/
def isAbbrevPat (w : List Char) : Bool :=
  match w with
  | [a, '.'] => isAsciiUpper a
  | [a, b, '.'] => isAsciiUpper a && isAsciiLower b
  | _ => false

def particleWords : List String :=
  ["de", "da", "del", "van", "von", "der", "den", "di", "la", "le", "bin", "al"]

/-- `^(?:de|da|...)$/i`. -/
def isParticleWord (w : List Char) : Bool :=
  particleWords.any fun p => lowerL w = p.data

/-- The word loop of `isLikelyEnglishAuthorName`; `none` means an early
`return false`. -/
def engNameCount : List (List Char) → Nat → Option Nat
  | [], n => some n
  | w :: rest, n =>
    if isInitialsPat w then engNameCount rest (n + 1)
    else if isCapWordPat w then engNameCount rest (n + 1)
    else if isAbbrevPat w then engNameCount rest (n + 1)
    else if isParticleWord w then engNameCount rest n
    else none

/-- `isLikelyEnglishAuthorName`. -/
def isLikelyEnglishAuthorName (name : String) : Bool :=
  let words := wordsOf name.data
  if words.length < 2 || words.length > 5 then false
  else
    match engNameCount words 0 with
    | some n => decide (2 ≤ n)
    | none => false

/-- `isLikelyKoreanAuthorName`: all whitespace removed, then `^[가-힣]{2,5}$`. -/
def isLikelyKoreanAuthorName (name : String) : Bool :=
  let compact := name.data.filter fun c => ¬ isJsSpace c
  compact.all isHangul && decide (2 ≤ compact.length) &&
    decide (compact.length ≤ 5)

/-- `isLikelyAuthorName`. -/
def isLikelyAuthorName (name : String) : Bool :=
  let normalized := normalizeAuthorToken name
  if normalized = "" then false
  else if normalized.data.length < 2 || normalized.data.length > 60 then false
  else if normalized.data.any isDigitCh || normalized.data.any (fun c => c = '@') ||
      containsCiLit normalized.data "http://".data ||
      containsCiLit normalized.data "https://".data then false
  else if hasAuthorNoise normalized then false
  else if isLikelyKoreanAuthorName normalized then true
  else if normalized.data.any isAsciiLetter &&
      isLikelyEnglishAuthorName normalized then true
  else false

def notSpace (c : Char) : Bool := ¬ isJsSpace c

/-- A maximal non-blank run matches `\S+@\S+` iff it has an interior `@`. -/
def runHasEmail (run : List Char) : Bool :=
  (List.range run.length).any fun i =>
    decide (0 < i) && decide (i + 1 < run.length) && run.getD i ' ' = '@'

/-- `/\S+@\S+/g → ' '`: a qualifying run is replaced whole by one space. -/
def emailRunsFixF : Nat → List Char → List Char
  | _, [] => []
  | 0, l => l
  | fuel + 1, c :: rest =>
    if isJsSpace c then c :: emailRunsFixF fuel rest
    else
      let run := (c :: rest).takeWhile notSpace
      let after := (c :: rest).dropWhile notSpace
      if runHasEmail run then ' ' :: emailRunsFixF fuel after
      else run ++ emailRunsFixF fuel after

def emailRunsFix (l : List Char) : List Char := emailRunsFixF l.length l

/-- `/https?:\/\/\S+/g → ' '` (case-sensitive, as in the source). -/
def urlFixF : Nat → List Char → List Char
  | _, [] => []
  | 0, l => l
  | fuel + 1, c :: rest =>
    if "https://".data.isPrefixOf (c :: rest) then
      if ((c :: rest).drop 8).takeWhile notSpace |>.isEmpty then
        c :: urlFixF fuel rest
      else ' ' :: urlFixF fuel (((c :: rest).drop 8).dropWhile notSpace)
    else if "http://".data.isPrefixOf (c :: rest) then
      if ((c :: rest).drop 7).takeWhile notSpace |>.isEmpty then
        c :: urlFixF fuel rest
      else ' ' :: urlFixF fuel (((c :: rest).drop 7).dropWhile notSpace)
    else c :: urlFixF fuel rest

def urlFix (l : List Char) : List Char := urlFixF l.length l

/-- `/orcid\.org\/\S+/gi → ' '`. -/
def orcidFixF : Nat → List Char → List Char
  | _, [] => []
  | 0, l => l
  | fuel + 1, c :: rest =>
    if ciIsPfx "orcid.org/".data (c :: rest) then
      if ((c :: rest).drop 10).takeWhile notSpace |>.isEmpty then
        c :: orcidFixF fuel rest
      else ' ' :: orcidFixF fuel (((c :: rest).drop 10).dropWhile notSpace)
    else c :: orcidFixF fuel rest

def orcidFix (l : List Char) : List Char := orcidFixF l.length l

def isBulletDot (c : Char) : Bool := c.val = 0xb7 || c.val = 0x2022

/-- `/\d+(?=\s|$)/g → ' '`: a maximal digit run directly followed by blank
or end-of-string is replaced (the lookahead is not consumed). -/
def digitRunsFixF : Nat → List Char → List Char
  | _, [] => []
  | 0, l => l
  | fuel + 1, c :: rest =>
    if isDigitCh c then
      let run := (c :: rest).takeWhile isDigitCh
      let after := (c :: rest).dropWhile isDigitCh
      if after.isEmpty || isJsSpace (after.getD 0 ' ') then
        ' ' :: digitRunsFixF fuel after
      else run ++ digitRunsFixF fuel after
    else c :: digitRunsFixF fuel rest

def digitRunsFix (l : List Char) : List Char := digitRunsFixF l.length l

/-- The whole sanitizing chain of `extractAuthorNamesFromLine`. -/
def sanitizeLine (line : String) : List Char :=
  let s1 := emailRunsFix line.data
  let s2 := urlFix s1
  let s3 := orcidFix s2
  let s4 := s3.map fun c => if isBulletDot c then ',' else c
  let s5 := digitRunsFix s4
  jsTrimL (collapseWsL s5)

/-- `replace(/^(?:authors?|author|by|저자)\s*[:\-]?\s*/i, '')` — greedy
alternation: `authors` before `author` before `by` before `저자`; then
optional blanks, one optional colon or dash, optional blanks. -/
def stripAuthorTag (l : List Char) : List Char :=
  let rem : Option (List Char) :=
    if ciIsPfx "authors".data l then some (l.drop 7)
    else if ciIsPfx "author".data l then some (l.drop 6)
    else if ciIsPfx "by".data l then some (l.drop 2)
    else if "저자".data.isPrefixOf l then some (l.drop 2)
    else none
  match rem with
  | some r =>
    let r1 := r.dropWhile isJsSpace
    let r2 := match r1 with
      | c :: rr => if c = ':' || c = '-' then rr else r1
      | [] => r1
    r2.dropWhile isJsSpace
  | none => l

/-- One separator alternative of `/\s*(?:,|;| and | & |\/)\s*/i` at the head
of the text, in alternation order; the result is its length. -/
def sepAlt (r : List Char) : Option Nat :=
  match r with
  | c :: _ =>
    if c = ',' then some 1
    else if c = ';' then some 1
    else if ciIsPfx " and ".data r then some 5
    else if ciIsPfx " & ".data r then some 3
    else if c = '/' then some 1
    else none
  | [] => none

/-- The greedy leading `\s*` backs off until an alternative matches; the
trailing `\s*` is greedy.  Returns the whole separator length. -/
def sepTryK (l : List Char) : Nat → Option Nat
  | 0 =>
    match sepAlt l with
    | some n => some (n + ((l.drop n).takeWhile isJsSpace).length)
    | none => none
  | k + 1 =>
    match sepAlt (l.drop (k + 1)) with
    | some n =>
      some ((k + 1) + n + ((l.drop (k + 1 + n)).takeWhile isJsSpace).length)
    | none => sepTryK l k

def sepMatchAt (l : List Char) : Option Nat :=
  sepTryK l (l.takeWhile isJsSpace).length

/-- `withoutPrefix.split(/\s*(?:,|;| and | & |\/)\s*/i)`.  A separator match
is always at least one character, so `fuel = length` never runs out. -/
def splitSepsAux : Nat → List Char → List (List Char) → List Char →
    List (List Char)
  | _, current, acc, [] => acc ++ [current]
  | 0, current, acc, l => acc ++ [current ++ l]
  | fuel + 1, current, acc, c :: rest =>
    match sepMatchAt (c :: rest) with
    | some n => splitSepsAux fuel [] (acc ++ [current]) ((c :: rest).drop n)
    | none => splitSepsAux fuel (current ++ [c]) acc rest

def splitSeps (l : List Char) : List (List Char) :=
  splitSepsAux l.length [] [] l

/-- Maximal `[A-Z][a-z]+(?:[-'][A-Za-z]+)*` at the head; length consumed. -/
def capGroupsLenF : Nat → List Char → Nat
  | _, [] => 0
  | 0, _ => 0
  | fuel + 1, s :: rest =>
    if (s = '-' || s = '\'') && !(rest.takeWhile isAsciiLetter).isEmpty then
      1 + (rest.takeWhile isAsciiLetter).length +
        capGroupsLenF fuel (rest.dropWhile isAsciiLetter)
    else 0

def capGroupsLen (l : List Char) : Nat := capGroupsLenF l.length l

def capWordLen (l : List Char) : Option Nat :=
  match l with
  | c :: rest =>
    if isAsciiUpper c && !(rest.takeWhile isAsciiLower).isEmpty then
      let low := (rest.takeWhile isAsciiLower).length
      some (1 + low + capGroupsLen (rest.drop low))
    else none
  | [] => none

/-- Maximal `(?:[A-Z]\.){1,3}` at the head (greedy, up to three pairs). -/
def initialsLen (l : List Char) : Option Nat :=
  match l with
  | a :: '.' :: rest =>
    if isAsciiUpper a then
      match rest with
      | b :: '.' :: rest2 =>
        if isAsciiUpper b then
          match rest2 with
          | c :: '.' :: _ =>
            if isAsciiUpper c then some 6 else some 4
          | _ => some 4
        else some 2
      | _ => some 2
    else none
  | _ => none

/-- First particle alternative (`de|da|del|van|...`, case-insensitive)
matching at the head. -/
def particleLen (l : List Char) : Option Nat :=
  match particleWords.find? (fun p => ciIsPfx p.data l) with
  | some p => some p.data.length
  | none => none

/-- One `\s+ (unit|particle)` repetition; returns consumed length. -/
def repOnce (l : List Char) : Option Nat :=
  let sp := (l.takeWhile isJsSpace).length
  if sp = 0 then none
  else
    let r := l.drop sp
    match capWordLen r with
    | some u => some (sp + u)
    | none =>
      match initialsLen r with
      | some u => some (sp + u)
      | none =>
        match particleLen r with
        | some u => some (sp + u)
        | none => none

/-- The greedy `{1,4}` repetition loop; `fuel` counts the repetitions still
allowed.  Returns total consumed length and the number of repetitions. -/
def repLoop (fuel : Nat) (l : List Char) : Nat × Nat :=
  match fuel with
  | 0 => (0, 0)
  | fuel' + 1 =>
    match repOnce l with
    | some n =>
      let t := repLoop fuel' (l.drop n)
      (n + t.1, 1 + t.2)
    | none => (0, 0)

/-- The English branch of the fallback name pattern, with the given first
unit length: at least one repetition must follow. -/
def engSeqLen (l : List Char) (unit : Option Nat) : Option Nat :=
  match unit with
  | none => none
  | some u =>
    let t := repLoop 4 (l.drop u)
    if t.2 ≥ 1 then some (u + t.1) else none

/-- Match of the whole fallback pattern
`(?:CapWord|Initials)(?:\s+(?:CapWord|Initials|particle)){1,4}|[가-힣]{2,5}`
at the head of `l`. -/
def namePatAt (l : List Char) : Option Nat :=
  match engSeqLen l (capWordLen l) with
  | some n => some n
  | none =>
    match engSeqLen l (initialsLen l) with
    | some n => some n
    | none =>
      let k := (l.takeWhile isHangul).length
      if k ≥ 2 then some (min k 5) else none

/-- `withoutPrefix.match(/.../g)`: scan left to right, collect matches,
resume after each match; a match is never empty, so `fuel = length` never
runs out. -/
def namePatMatchesF : Nat → List Char → List (List Char)
  | _, [] => []
  | 0, _ => []
  | fuel + 1, c :: rest =>
    match namePatAt (c :: rest) with
    | some n =>
      (c :: rest).take n :: namePatMatchesF fuel ((c :: rest).drop n)
    | none => namePatMatchesF fuel rest

def namePatMatches (l : List Char) : List (List Char) :=
  namePatMatchesF l.length l

/-- `extractAuthorNamesFromLine`. -/
def extractAuthorNamesFromLine (line : String) : List String :=
  if line = "" then []
  else if hardStop line then []
  else
    let sanitizedLine := sanitizeLine line
    if sanitizedLine.isEmpty || sanitizedLine.length > 240 then []
    else
      let withoutPfx := jsTrimL (stripAuthorTag sanitizedLine)
      if withoutPfx.isEmpty then []
      else
        let parts0 :=
          ((splitSeps withoutPfx).map fun p =>
            normalizeAuthorToken ⟨p⟩).filter fun s => s ≠ ""
        let parts :=
          if parts0.length ≤ 1 then
            (namePatMatches withoutPfx).map fun m => (⟨m⟩ : String)
          else parts0
        uniqueNonEmpty (parts.filter isLikelyAuthorName)

/-- `/^(?:authors?|author|by|저자)\b/i`. -/
def hasAuthorTagWord (line : String) : Bool :=
  ["authors", "author", "by", "저자"].any fun w => ciPfxWord w.data line.data

/-- `/\S+@\S+/.test(line)`: an `@` with non-blank neighbours. -/
def hasEmailPattern (line : String) : Bool :=
  let l := line.data
  (List.range l.length).any fun i =>
    l.getD i ' ' = '@' && decide (0 < i) && decide (i + 1 < l.length) &&
    notSpace (l.getD (i - 1) ' ') && notSpace (l.getD (i + 1) ' ')

/-- `scoreAuthorLine(line, names, lineIndex)`. -/
def scoreAuthorLine (line : String) (names : List String)
    (lineIndex : Nat) : Int :=
  (names.length : Int) * 3 +
  (if hasAuthorTagWord line then 7 else 0) +
  (if lineIndex ≤ 8 then 2 else 0) +
  (if line.data.length ≤ 110 then 1 else 0) -
  (if hasAuthorNoise line && ¬ hasAuthorTagWord line then 3 else 0) -
  (if hasEmailPattern line then 1 else 0)

/-- Split on `'\n'` (after `\r` was replaced by `\n`). -/
def splitOnNlAux (current : List Char) : List Char → List (List Char)
  | [] => [current.reverse]
  | c :: rest =>
    if c = '\n' then current.reverse :: splitOnNlAux [] rest
    else splitOnNlAux (c :: current) rest

/-- One scored candidate of the detector. -/
structure Candidate where
  names : List String
  score : Int
  index : Nat
deriving Repr, Inhabited

/-- The sort comparator
`b.score - a.score || b.names.length - a.names.length || a.index - b.index`
as a `≤` test.  On any candidate list produced below the key
`(score, names.length, index)` is injective (two candidates can share an
index only as the single-line and merged two-line candidate of the same
line, whose name counts differ), so every sorting algorithm produces the
same list as `Array.prototype.sort`; a structural insertion sort is used. -/
def candLE (a b : Candidate) : Bool :=
  if a.score ≠ b.score then a.score > b.score
  else if a.names.length ≠ b.names.length then a.names.length > b.names.length
  else a.index ≤ b.index

def insertCand (c : Candidate) : List Candidate → List Candidate
  | [] => [c]
  | d :: rest => if candLE c d then c :: d :: rest else d :: insertCand c rest

def sortCands : List Candidate → List Candidate
  | [] => []
  | c :: rest => insertCand c (sortCands rest)

/-- The name-accumulation loop body: add names not yet present
(case-insensitively), with an early `return merged` at 12. -/
def addNamesUpTo (merged : List String) : List String → Sum (List String) (List String)
  | [] => Sum.inr merged
  | n :: rest =>
    let merged' :=
      if merged.any (fun e => lowerStr e = lowerStr n) then merged
      else merged ++ [n]
    if merged'.length ≥ 12 then Sum.inl merged'
    else addNamesUpTo merged' rest

/-- The `for (const candidate of candidates.slice(1))` loop of the
low-confidence branch: stop 3 points below the top score, else accumulate;
the early return at 12 skips the final dedup/cap. -/
def accumCands (top : Int) (merged : List String) : List Candidate → List String
  | [] => (uniqueNonEmpty merged).take 12
  | c :: rest =>
    if c.score < top - 3 then (uniqueNonEmpty merged).take 12
    else
      match addNamesUpTo merged c.names with
      | Sum.inl early => early
      | Sum.inr merged' => accumCands top merged' rest

/-- The candidate-collection loop of `extractAuthorsFromPdfText`, including
the synthesized two-line candidate. -/
def collectCandidates (headerLines : List String) (scanLimit : Nat) :
    List Candidate :=
  (List.range scanLimit).flatMap fun i =>
    let line := headerLines.getD i ""
    let names := extractAuthorNamesFromLine line
    if names.length = 0 then []
    else
      let single : List Candidate :=
        [{ names := names, score := scoreAuthorLine line names i, index := i }]
      if i + 1 < scanLimit then
        let nextLine := headerLines.getD (i + 1) ""
        let nextNames := extractAuthorNamesFromLine nextLine
        if nextNames.length > 0 && ¬ hasAuthorNoise nextLine then
          let mergedNames := uniqueNonEmpty (names ++ nextNames)
          if mergedNames.length > names.length then
            single ++
              [{ names := mergedNames,
                 score := scoreAuthorLine line names i +
                   scoreAuthorLine nextLine nextNames (i + 1) - 1,
                 index := i }]
          else single
        else single
      else single

/-- `extractAuthorsFromPdfText`. -/
def extractAuthorsFromPdfText (pdfText : String) : List String :=
  if pdfText = "" then []
  else
    let firstChunk :=
      (pdfText.data.take 12000).map fun c => if c = '\r' then '\n' else c
    let lines :=
      ((splitOnNlAux [] firstChunk).map fun l =>
        jsTrim ⟨collapseWsL l⟩).filter fun s => s ≠ ""
    if lines.isEmpty then []
    else
      let stopIndex := lines.findIdx? stopPattern
      let headerLines := lines.take
        (match stopIndex with
         | some si => if si > 0 then min si 70 else min lines.length 70
         | none => min lines.length 70)
      if headerLines.isEmpty then []
      else
        let scanLimit := min headerLines.length 45
        let candidates := collectCandidates headerLines scanLimit
        if candidates.isEmpty then []
        else
          let sorted := sortCands candidates
          let best := (sorted.getD 0 default).names
          if best.length ≥ 2 then (uniqueNonEmpty best).take 12
          else
            accumCands (sorted.getD 0 default).score best (sorted.drop 1)

/-- A fixed request used by the concrete pipeline theorems. -/
def req0 : GenRequest :=
  { projectId := "p1"
    sourceType := "github"
    sourceUrl := "https://g/x" }

/-! ## Theorems -/

set_option maxRecDepth 40000 in
/-- C7: on the header text "Authors: Jane Doe, John Smith" the author-name
detector returns exactly ["Jane Doe", "John Smith"], in that order. -/
theorem extractAuthors_janeDoe_johnSmith :
    extractAuthorsFromPdfText "Authors: Jane Doe, John Smith" =
      ["Jane Doe", "John Smith"] := by
  decide

/-- C2 counterexample: a generator response with no JSON object at all is
NOT recovered locally — the missing-JSON throw reaches the outer catch and
the request fails with a 500 pipeline error. -/
theorem generator_no_json_is_error :
    postGenerateTail req0 [] [] [] "2026"
      "Sorry, here is a plain text answer." (fun _ => none) (Except.ok ()) =
      ApiResult.httpError 500 "콘텐츠 생성 중 오류가 발생했습니다."
        "AI 응답에서 JSON을 찾을 수 없습니다." := by
  decide

/-- C2 amended: when the cleaned generator text does contain a
brace-delimited JSON candidate and `JSON.parse` fails on the repaired
candidate, the pipeline recovers locally: the request completes successfully
with the synthesized fallback record (title from the project id, authors
from already-known sources, abstract from the raw generator text). -/
theorem generator_bad_json_recovered (req : GenRequest)
    (extracted : List String) (fbm mao : List Author)
    (nowYear text : String) (parse : String → Option GenData)
    (persist : Except String Unit) (cand : List Char)
    (hc : extractJsonCandidate (cleanupGeneratorText text).data = some cand)
    (hp : parse ⟨repairJson cand⟩ = none) :
    postGenerateTail req extracted fbm mao nowYear text parse persist =
      ApiResult.ok
        (buildResponseData req extracted fbm mao nowYear
          (fallbackRecord req extracted fbm nowYear
            (cleanupGeneratorText text)))
        "페이지가 자동으로 생성되었습니다." := by
  simp only [postGenerateTail, parseGeneratorResponse, hc, hp]
  cases persist <;> rfl

/-- Witness for the amended C2 at a concrete malformed response. -/
theorem generator_bad_json_recovered_witness :
    postGenerateTail req0 [] [] [] "2026"
      "intro \x7bnot json] oops\x7d" (fun _ => none) (Except.ok ()) =
      ApiResult.ok
        (buildResponseData req0 [] [] [] "2026"
          (fallbackRecord req0 [] [] "2026"
            (cleanupGeneratorText "intro \x7bnot json] oops\x7d")))
        "페이지가 자동으로 생성되었습니다." :=
  generator_bad_json_recovered _ _ _ _ _ _ _ _
    "\x7bnot json] oops\x7d".data (by decide) rfl

/-- C3 counterexample: the persist step fails with the store's error text,
yet the request completes successfully — the handler catches the save error
and only logs it. -/
theorem persist_failure_not_fatal :
    postGenerateTail req0 [] [] [] "2026" "\x7b\x7d"
      (fun _ => some {}) (Except.error "ENOSPC: no space left on device") =
      ApiResult.ok
        { title := "p1 Project", authors := [{ name := "Author" }],
          institution := "ModuLabs", venue := "Publication", year := "2026",
          abstract := "Abstract text here..." }
        "페이지가 자동으로 생성되었습니다." := by
  decide

/-- C3 amended: the outcome of the persist step never influences the
response — a persist failure is swallowed (only logged), and whenever the
generator phase produced a record the request completes successfully with
that record, the store's error text appearing nowhere in the response. -/
theorem persist_outcome_ignored (req : GenRequest) (extracted : List String)
    (fbm mao : List Author) (nowYear text : String)
    (parse : String → Option GenData) (e : String) :
    (postGenerateTail req extracted fbm mao nowYear text parse
        (Except.error e) =
      postGenerateTail req extracted fbm mao nowYear text parse
        (Except.ok ())) ∧
    ∀ gd, parseGeneratorResponse req extracted fbm nowYear text parse =
        Except.ok gd →
      postGenerateTail req extracted fbm mao nowYear text parse
          (Except.error e) =
        ApiResult.ok
          (buildResponseData req extracted fbm mao nowYear gd)
          "페이지가 자동으로 생성되었습니다." := by
  constructor
  · simp only [postGenerateTail]
  · intro gd hgd
    simp only [postGenerateTail, hgd]

/-- Witness for the amended C3. -/
theorem persist_outcome_ignored_witness :
    postGenerateTail req0 [] [] [] "2026" "\x7b\x7d"
      (fun _ => some {}) (Except.error "disk full") =
      ApiResult.ok
        (buildResponseData req0 [] [] [] "2026" {})
        "페이지가 자동으로 생성되었습니다." :=
  (persist_outcome_ignored _ _ _ _ _ _ _ "disk full").2 {} (by rfl)

/-- C4 counterexample: for a 3-row batch whose second row has an invalid
sourceType, the batch-level handler stores **zero** jobs (the whole batch is
rejected), not the 2 valid ones the claim promises. -/
theorem bulk_invalid_row_rejects_batch :
    ((handleParseBulkCsv
        "sourceType,sourceUrl,projectId\ngithub,https://g/x,p1\nbadtype,u,p2\nyoutube,https://y/z,p3").2.length
      = 0) ∧
    (parseBulkCsv
        "sourceType,sourceUrl,projectId\ngithub,https://g/x,p1\nbadtype,u,p2\nyoutube,https://y/z,p3").2.length
      = 1 := by
  decide

/-- C4 amended: `parseBulkCsv` itself yields exactly the two valid rows as
jobs in state `queued` and exactly one validation error for the invalid
row; since errors are present the handler then stores no jobs at all, so no
row — valid or invalid — is ever executed. -/
theorem bulk_invalid_row_amended :
    ((parseBulkCsv
        "sourceType,sourceUrl,projectId\ngithub,https://g/x,p1\nbadtype,u,p2\nyoutube,https://y/z,p3").1.map
      fun j => (j.projectId, j.status)) =
      [("p1", BulkJobStatus.queued), ("p3", BulkJobStatus.queued)] ∧
    (parseBulkCsv
        "sourceType,sourceUrl,projectId\ngithub,https://g/x,p1\nbadtype,u,p2\nyoutube,https://y/z,p3").2 =
      ["3행: sourceType은 pdf/github/youtube 중 하나여야 합니다."] ∧
    handleParseBulkCsv
        "sourceType,sourceUrl,projectId\ngithub,https://g/x,p1\nbadtype,u,p2\nyoutube,https://y/z,p3" =
      (some "3행: sourceType은 pdf/github/youtube 중 하나여야 합니다.", []) := by
  decide

/-! ### Trim idempotence and key stability -/

theorem dropWhile_dropWhile (p : Char → Bool) (l : List Char) :
    (l.dropWhile p).dropWhile p = l.dropWhile p := by
  induction l with
  | nil => rfl
  | cons c cs ih =>
    by_cases h : p c
    · simp [List.dropWhile_cons, h, ih]
    · simp [List.dropWhile_cons, h]

theorem trimLeftL_idem (l : List Char) :
    trimLeftL (trimLeftL l) = trimLeftL l := dropWhile_dropWhile _ _

theorem trimRightL_idem (l : List Char) :
    trimRightL (trimRightL l) = trimRightL l := by
  simp [trimRightL, List.reverse_reverse, dropWhile_dropWhile]

theorem head_dropWhile_not (p : Char → Bool) (l : List Char) (c : Char)
    (h : (l.dropWhile p).head? = some c) : p c = false := by
  induction l with
  | nil => simp at h
  | cons a as ih =>
    by_cases ha : p a
    · rw [List.dropWhile_cons, if_pos ha] at h; exact ih h
    · rw [List.dropWhile_cons, if_neg ha] at h
      simp at h
      subst h
      simpa using ha

theorem trimLeftL_eq_self (l : List Char)
    (h : ∀ c, l.head? = some c → isJsSpace c = false) :
    trimLeftL l = l := by
  cases l with
  | nil => rfl
  | cons c cs =>
    have := h c (by simp)
    simp [trimLeftL, List.dropWhile_cons, this]

theorem trimRightL_isPrefix (l : List Char) : trimRightL l <+: l := by
  have h1 : (l.reverse.dropWhile isJsSpace) <:+ l.reverse :=
    List.dropWhile_suffix _
  have h2 := List.reverse_prefix.mpr h1
  simpa using h2

theorem jsTrimL_idem (l : List Char) : jsTrimL (jsTrimL l) = jsTrimL l := by
  unfold jsTrimL
  have hA : trimLeftL (trimRightL (trimLeftL l)) = trimRightL (trimLeftL l) := by
    apply trimLeftL_eq_self
    intro c hc
    obtain ⟨t, ht⟩ := trimRightL_isPrefix (trimLeftL l)
    have : (trimLeftL l).head? = some c := by
      rw [← ht]
      cases hx : trimRightL (trimLeftL l) with
      | nil => rw [hx] at hc; simp at hc
      | cons y ys =>
        rw [hx] at hc
        simp at hc
        simp [hc]
    exact head_dropWhile_not isJsSpace l c this
  rw [hA, trimRightL_idem]

theorem jsTrim_idem (s : String) : jsTrim (jsTrim s) = jsTrim s := by
  show (⟨jsTrimL (jsTrimL s.data)⟩ : String) = ⟨jsTrimL s.data⟩
  rw [jsTrimL_idem]

theorem normalizeAuthorKey_jsTrim (s : String) :
    normalizeAuthorKey (jsTrim s) = normalizeAuthorKey s := by
  unfold normalizeAuthorKey
  rw [jsTrim_idem]

/-! ### Invariants of mergeAuthorSets -/

/-- Auxiliary: `List.set` beyond the length is the identity. -/
theorem set_oob {α : Type} (l : List α) (i : Nat) (v : α)
    (h : l.length ≤ i) : l.set i v = l := by
  induction l generalizing i with
  | nil => rfl
  | cons x xs ih =>
    cases i with
    | zero => simp at h
    | succ n => simp [List.set]; exact ih n (by simpa using h)

theorem mergeAuthor_name (b x : Author) :
    (mergeAuthor b x).name = if b.name ≠ "" then b.name else x.name := rfl

/-- Every entry of a merge state with nonempty trimmed names keeps that
shape across one `mergeStep`. -/
theorem mergeStep_name_inv (allow : Bool) (st : MergeState) (a : Author)
    (h : ∀ x ∈ st.1, x.name ≠ "" ∧ jsTrim x.name = x.name) :
    ∀ x ∈ (mergeStep allow st a).1, x.name ≠ "" ∧ jsTrim x.name = x.name := by
  intro x hx
  unfold mergeStep at hx
  by_cases hn : jsTrim a.name = ""
  · rw [if_pos hn] at hx; exact h x hx
  · rw [if_neg hn] at hx
    simp only at hx
    cases hm : mapGet st.2 (normalizeAuthorKey (jsTrim a.name)) with
    | some i =>
      rw [hm] at hx
      simp only at hx
      rcases List.mem_or_eq_of_mem_set hx with hmem | heq
      · exact h x hmem
      · subst heq
        by_cases ho : (st.1.getD i { name := "" }).name = ""
        · constructor
          · rw [mergeAuthor_name, if_neg (not_not_intro ho)]
            exact hn
          · rw [mergeAuthor_name, if_neg (not_not_intro ho)]
            exact jsTrim_idem a.name
        · have hi : i < st.1.length := by
            by_contra hge
            rw [List.getD_eq_getElem?_getD] at ho
            rw [List.getElem?_eq_none (by omega)] at ho
            simp at ho
          have hmm : st.1.getD i { name := "" } ∈ st.1 := by
            rw [List.getD_eq_getElem _ _ hi]
            exact List.getElem_mem hi
          have hprops := h _ hmm
          constructor
          · rw [mergeAuthor_name, if_pos ho]
            exact hprops.1
          · rw [mergeAuthor_name, if_pos ho]
            exact hprops.2
    | none =>
      rw [hm] at hx
      simp only at hx
      by_cases hall : allow
      · rw [if_pos hall] at hx
        simp only [List.mem_append, List.mem_singleton] at hx
        rcases hx with hmem | heq
        · exact h x hmem
        · subst heq
          exact ⟨hn, jsTrim_idem a.name⟩
      · rw [if_neg hall] at hx
        exact h x hx

theorem foldl_mergeStep_name_inv (allow : Bool) (B : List Author) :
    ∀ st : MergeState, (∀ x ∈ st.1, x.name ≠ "" ∧ jsTrim x.name = x.name) →
    ∀ x ∈ (B.foldl (mergeStep allow) st).1,
      x.name ≠ "" ∧ jsTrim x.name = x.name := by
  induction B with
  | nil => intro st h x hx; exact h x hx
  | cons a B' ih =>
    intro st h
    exact ih (mergeStep allow st a) (mergeStep_name_inv allow st a h)

/-- C10: every entry returned by `mergeAuthorSets` has a nonempty (already
trimmed) name — blank-named base entries were dropped and blank-named
incoming entries skipped. -/
theorem mergeAuthorSets_names_nonempty (base incoming : List Author)
    (allow : Bool) :
    ∀ a ∈ mergeAuthorSets base incoming allow,
      a.name ≠ "" ∧ jsTrim a.name = a.name := by
  intro a ha
  unfold mergeAuthorSets at ha
  refine foldl_mergeStep_name_inv allow incoming _ ?_ a ha
  intro x hx
  simp only [List.mem_filter, List.mem_map] at hx
  obtain ⟨⟨b, hb, rfl⟩, hpred⟩ := hx
  refine ⟨by simpa using hpred, ?_⟩
  exact jsTrim_idem b.name

/-- Witness for C10 at a concrete pair of lists with blank entries. -/
theorem mergeAuthorSets_names_nonempty_witness :
    ({ name := "A" } : Author) ∈
      mergeAuthorSets [{ name := " " }, { name := " A " }]
        [{ name := "  " }, { name := "A" }] true ∧
    (({ name := "A" } : Author).name ≠ "" ∧
      jsTrim ({ name := "A" } : Author).name = ({ name := "A" } : Author).name) :=
  ⟨by decide,
   mergeAuthorSets_names_nonempty
     [{ name := " " }, { name := " A " }] [{ name := "  " }, { name := "A" }]
     true { name := "A" } (by decide)⟩

/-- Replacing an element by one with the same name leaves the name list
unchanged. -/
theorem map_name_set_same (l : List Author) (i : Nat) (v : Author)
    (hv : v.name = (l.getD i { name := "" }).name) :
    (l.set i v).map (fun x => x.name) = l.map fun x => x.name := by
  induction l generalizing i with
  | nil => rfl
  | cons x xs ih =>
    cases i with
    | zero =>
      simp only [List.getD_cons_zero] at hv
      simp [List.set, hv]
    | succ n =>
      simp only [List.getD_cons_succ] at hv
      simp [List.set, ih n hv]

/-- With `allowNewNames = false` a merge step never changes the list of
names (matches only overwrite secondary fields, new names are dropped). -/
theorem mergeStep_false_names (st : MergeState) (a : Author)
    (h : ∀ n ∈ st.1.map (fun x => x.name), n ≠ "") :
    ((mergeStep false st a).1.map fun x => x.name) =
      st.1.map fun x => x.name := by
  unfold mergeStep
  by_cases hn : jsTrim a.name = ""
  · rw [if_pos hn]
  · rw [if_neg hn]
    simp only
    cases hm : mapGet st.2 (normalizeAuthorKey (jsTrim a.name)) with
    | some i =>
      simp only
      rcases Nat.lt_or_ge i st.1.length with hi | hi
      · have ho : (st.1.getD i { name := "" }).name ≠ "" := by
          apply h
          rw [List.getD_eq_getElem _ _ hi]
          exact List.mem_map_of_mem _ (List.getElem_mem hi)
        apply map_name_set_same
        rw [mergeAuthor_name, if_pos ho]
      · rw [set_oob _ _ _ hi]
    | none => rfl

theorem foldl_mergeStep_false_names (B : List Author) : ∀ st : MergeState,
    (∀ n ∈ st.1.map (fun x => x.name), n ≠ "") →
    ((B.foldl (mergeStep false) st).1.map fun x => x.name) =
      st.1.map fun x => x.name := by
  induction B with
  | nil => intro st _; rfl
  | cons a B' ih =>
    intro st h
    have hstep := mergeStep_false_names st a h
    have h' : ∀ n ∈ (mergeStep false st a).1.map (fun x => x.name), n ≠ "" := by
      rw [hstep]; exact h
    calc ((a :: B').foldl (mergeStep false) st).1.map (fun x => x.name)
        = ((B'.foldl (mergeStep false) (mergeStep false st a)).1.map
            fun x => x.name) := rfl
      _ = (mergeStep false st a).1.map (fun x => x.name) := ih _ h'
      _ = st.1.map (fun x => x.name) := hstep

/-- C1 counterexample: for A with a whitespace-only author name the merged
result is shorter than A — the claimed `length ≥ len(A)` fails. -/
theorem mergeAuthorSets_shrinks_on_blank :
    ¬ (([{ name := " " }] : List Author).length ≤
        (mergeAuthorSets [{ name := " " }] [] false).length) := by
  decide

/-- C1 amended: when every entry of A has a nonempty trimmed name and no
two entries of A share a normalized name, merging any B with
`allowNewNames = false` keeps at least `len(A)` entries and yields no two
entries with the same normalized name. -/
theorem mergeAuthorSets_noNewNames_len_nodup (A B : List Author)
    (h1 : ∀ a ∈ A, jsTrim a.name ≠ "")
    (h2 : (A.map fun a => normalizeAuthorKey a.name).Nodup) :
    A.length ≤ (mergeAuthorSets A B false).length ∧
    ((mergeAuthorSets A B false).map fun a => normalizeAuthorKey a.name).Nodup := by
  have hm0 : ((A.map fun a => { a with name := jsTrim a.name }).filter
      fun a => a.name ≠ "") = A.map fun a => { a with name := jsTrim a.name } := by
    apply List.filter_eq_self.mpr
    intro x hx
    simp only [List.mem_map] at hx
    obtain ⟨b, hb, rfl⟩ := hx
    simpa using h1 b hb
  have hnames : (mergeAuthorSets A B false).map (fun x => x.name) =
      A.map fun a => jsTrim a.name := by
    unfold mergeAuthorSets
    simp only
    rw [hm0]
    rw [foldl_mergeStep_false_names]
    · rw [List.map_map]; rfl
    · intro n hnn
      simp only [List.map_map, List.mem_map] at hnn
      obtain ⟨b, hb, rfl⟩ := hnn
      exact h1 b hb
  constructor
  · have hlen := congrArg List.length hnames
    simp only [List.length_map] at hlen
    omega
  · have hkeys : ((mergeAuthorSets A B false).map
        fun a => normalizeAuthorKey a.name) =
        A.map fun a => normalizeAuthorKey a.name := by
      have e1 : ((mergeAuthorSets A B false).map
          fun a => normalizeAuthorKey a.name) =
          ((mergeAuthorSets A B false).map (fun x => x.name)).map
            normalizeAuthorKey := by
        rw [List.map_map]; rfl
      rw [e1, hnames, List.map_map]
      apply List.map_congr_left
      intro b _
      exact normalizeAuthorKey_jsTrim b.name
    rw [hkeys]
    exact h2

/-- Witness for the amended C1. -/
theorem mergeAuthorSets_noNewNames_witness :
    ([{ name := "Jane" }, { name := "Bob" }] : List Author).length ≤
      (mergeAuthorSets [{ name := "Jane" }, { name := "Bob" }]
        [{ name := " JANE ", url := some "u" }, { name := "New" }]
        false).length ∧
    ((mergeAuthorSets [{ name := "Jane" }, { name := "Bob" }]
        [{ name := " JANE ", url := some "u" }, { name := "New" }]
        false).map fun a => normalizeAuthorKey a.name).Nodup :=
  mergeAuthorSets_noNewNames_len_nodup
    [{ name := "Jane" }, { name := "Bob" }]
    [{ name := " JANE ", url := some "u" }, { name := "New" }]
    (by decide) (by decide)

theorem mergeAuthor_url (b x : Author) :
    (mergeAuthor b x).url = jsOrS b.url x.url := rfl

theorem mergeAuthor_affiliation (b x : Author) :
    (mergeAuthor b x).affiliation = jsOrS b.affiliation x.affiliation := rfl

theorem jsOrS_truthy (a b : Option String) (h : truthyS a = true) :
    jsOrS a b = a := by
  unfold jsOrS
  rw [if_pos h]

/-- One merge keeps every field that is set on the base entry. -/
theorem mergeAuthor_keeps_set_fields (base incoming : Author) :
    (base.name ≠ "" → (mergeAuthor base incoming).name = base.name) ∧
    (truthyS base.url = true → (mergeAuthor base incoming).url = base.url) ∧
    (truthyS base.affiliation = true →
      (mergeAuthor base incoming).affiliation = base.affiliation) ∧
    (base.equalContribution.isSome = true →
      (mergeAuthor base incoming).equalContribution =
        base.equalContribution) := by
  refine ⟨?_, ?_, ?_, ?_⟩
  · intro h
    rw [mergeAuthor_name, if_pos h]
  · intro h
    rw [mergeAuthor_url, jsOrS_truthy _ _ h]
  · intro h
    rw [mergeAuthor_affiliation, jsOrS_truthy _ _ h]
  · intro h
    cases hb : base.equalContribution with
    | some v => simp [mergeAuthor, hb]
    | none => rw [hb] at h; simp at h

/-- Any sequence of merges into an entry keeps every field that is set. -/
theorem foldl_mergeAuthor_keeps_set_fields (l : List Author) :
    ∀ base : Author,
    (base.name ≠ "" → (l.foldl mergeAuthor base).name = base.name) ∧
    (truthyS base.url = true → (l.foldl mergeAuthor base).url = base.url) ∧
    (truthyS base.affiliation = true →
      (l.foldl mergeAuthor base).affiliation = base.affiliation) ∧
    (base.equalContribution.isSome = true →
      (l.foldl mergeAuthor base).equalContribution =
        base.equalContribution) := by
  induction l with
  | nil => intro base; exact ⟨fun _ => rfl, fun _ => rfl, fun _ => rfl, fun _ => rfl⟩
  | cons x l ih =>
    intro base
    obtain ⟨m1, m2, m3, m4⟩ := mergeAuthor_keeps_set_fields base x
    obtain ⟨i1, i2, i3, i4⟩ := ih (mergeAuthor base x)
    refine ⟨?_, ?_, ?_, ?_⟩
    · intro h
      have hm := m1 h
      rw [List.foldl_cons, i1 (by rw [hm]; exact h), hm]
    · intro h
      have hm := m2 h
      rw [List.foldl_cons, i2 (by rw [hm]; exact h), hm]
    · intro h
      have hm := m3 h
      rw [List.foldl_cons, i3 (by rw [hm]; exact h), hm]
    · intro h
      have hm := m4 h
      rw [List.foldl_cons, i4 (by rw [hm]; exact h), hm]

/-- C8: a field already set on the base entry is kept by `mergeAuthor`, and
once set it is never overwritten across any sequence of merges. -/
theorem merge_never_overwrites (base incoming : Author) :
    ((base.name ≠ "" → (mergeAuthor base incoming).name = base.name) ∧
     (truthyS base.url = true → (mergeAuthor base incoming).url = base.url) ∧
     (truthyS base.affiliation = true →
       (mergeAuthor base incoming).affiliation = base.affiliation) ∧
     (base.equalContribution.isSome = true →
       (mergeAuthor base incoming).equalContribution =
         base.equalContribution)) ∧
    ∀ l : List Author,
     (base.name ≠ "" → (l.foldl mergeAuthor base).name = base.name) ∧
     (truthyS base.url = true → (l.foldl mergeAuthor base).url = base.url) ∧
     (truthyS base.affiliation = true →
       (l.foldl mergeAuthor base).affiliation = base.affiliation) ∧
     (base.equalContribution.isSome = true →
       (l.foldl mergeAuthor base).equalContribution =
         base.equalContribution) :=
  ⟨mergeAuthor_keeps_set_fields base incoming,
   fun l => foldl_mergeAuthor_keeps_set_fields l base⟩

/-- Witness for C8 on a fully populated base entry and two merges. -/
theorem merge_never_overwrites_witness :
    (mergeAuthor { name := "A", url := some "u1", affiliation := some "X", equalContribution := some true } { name := "B", url := some "u2", affiliation := some "Y", equalContribution := some false }).url = some "u1" ∧
    (([{ name := "B", url := some "u2" }, { name := "C", affiliation := some "Z" }] : List Author).foldl mergeAuthor { name := "A", url := some "u1", affiliation := some "X", equalContribution := some true }).affiliation = some "X" :=
  ⟨(merge_never_overwrites { name := "A", url := some "u1", affiliation := some "X", equalContribution := some true } { name := "B", url := some "u2", affiliation := some "Y", equalContribution := some false }).1.2.1 (by decide),
   ((merge_never_overwrites { name := "A", url := some "u1", affiliation := some "X", equalContribution := some true } { name := "B", url := some "u2", affiliation := some "Y", equalContribution := some false }).2 [{ name := "B", url := some "u2" }, { name := "C", affiliation := some "Z" }]).2.2.1 (by decide)⟩

/-- C9: with equal nonzero lengths and at least one enrichment affiliation,
backfill copies affiliations index-for-index into base entries lacking one
and leaves entries that already have one untouched. -/
theorem applyAffiliation_backfill (base enrich : List Author)
    (hlen : base.length = enrich.length) (hne : base.length ≠ 0)
    (haff : enrich.any (fun a => truthyS a.affiliation) = true) :
    (applyAffiliationByPosition base enrich).length = base.length ∧
    ∀ i, i < base.length →
      ((truthyS (base.getD i { name := "" }).affiliation = true →
          (applyAffiliationByPosition base enrich).getD i { name := "" } =
            base.getD i { name := "" }) ∧
       (truthyS (base.getD i { name := "" }).affiliation = false →
        truthyS (enrich.getD i { name := "" }).affiliation = true →
          (applyAffiliationByPosition base enrich).getD i { name := "" } =
            { base.getD i { name := "" } with
                affiliation := (enrich.getD i { name := "" }).affiliation })) := by
  have hd : applyAffiliationByPosition base enrich = base.enum.map (fun p =>
      if truthyS p.2.affiliation then p.2
      else match (enrich.getD p.1 { name := "" }).affiliation with
        | some aff =>
          if aff ≠ "" then { p.2 with affiliation := some aff } else p.2
        | none => p.2) := by
    unfold applyAffiliationByPosition
    have hne2 : enrich.length ≠ 0 := by omega
    rw [if_neg (by simp [hne, hne2]), if_neg (not_not_intro hlen),
      if_neg (not_not_intro haff)]
  refine ⟨?_, ?_⟩
  · rw [hd]
    simp [List.enum_length]
  · intro i hi
    have hb : base.getD i { name := "" } = base[i] :=
      List.getD_eq_getElem _ _ hi
    have hget : (applyAffiliationByPosition base enrich).getD i { name := "" } =
        (if truthyS base[i].affiliation then base[i]
         else match (enrich.getD i { name := "" }).affiliation with
           | some aff =>
             if aff ≠ "" then { base[i] with affiliation := some aff }
             else base[i]
           | none => base[i]) := by
      rw [hd, List.getD_eq_getElem?_getD, List.getElem?_map, List.getElem?_enum,
        List.getElem?_eq_getElem hi]
      rfl
    constructor
    · intro ht
      rw [hb] at ht
      rw [hget, if_pos ht, hb]
    · intro ht he
      rw [hb] at ht
      rw [hget, if_neg (by simp [ht])]
      cases hea : (enrich.getD i { name := "" }).affiliation with
      | none => rw [hea] at he; simp [truthyS] at he
      | some aff =>
        rw [hea] at he
        have haffne : aff ≠ "" := by simpa [truthyS] using he
        simp only
        rw [if_pos haffne, hb]

/-- Witness for C9 on the roster pair from the specification. -/
theorem applyAffiliation_backfill_witness :
    applyAffiliationByPosition [{ name := "A" }, { name := "B" }]
        [{ name := "X", affiliation := some "MIT" },
         { name := "Y", affiliation := some "CMU" }] =
      [{ name := "A", affiliation := some "MIT" },
       { name := "B", affiliation := some "CMU" }] ∧
    (applyAffiliationByPosition [{ name := "A" }, { name := "B" }]
        [{ name := "X", affiliation := some "MIT" },
         { name := "Y", affiliation := some "CMU" }]).getD 0 { name := "" } =
      { name := "A", affiliation := some "MIT" } :=
  ⟨by decide,
   ((applyAffiliation_backfill [{ name := "A" }, { name := "B" }]
      [{ name := "X", affiliation := some "MIT" },
       { name := "Y", affiliation := some "CMU" }]
      (by decide) (by decide) (by decide)).2 0 (by decide)).2
     (by decide) (by decide)⟩

/-- C5: "retry failed only" on a batch [success, failed, failed] (distinct
ids) re-queues exactly the two failed jobs, clearing their message and
result title, and leaves the success job untouched. -/
theorem retry_failed_only_requeues (j1 j2 j3 : BulkJob)
    (h1 : j1.status = BulkJobStatus.success)
    (h2 : j2.status = BulkJobStatus.failed)
    (h3 : j3.status = BulkJobStatus.failed)
    (d12 : j1.projectId ≠ j2.projectId)
    (d13 : j1.projectId ≠ j3.projectId) :
    requeueJobs [j1, j2, j3] true =
      [j1,
       { j2 with status := BulkJobStatus.queued, message := none,
                 generatedTitle := none },
       { j3 with status := BulkJobStatus.queued, message := none,
                 generatedTitle := none }] := by
  simp [requeueJobs, h1, h2, h3, d12, d13]

/-- Witness for C5 on a concrete batch. -/
theorem retry_failed_only_witness :
    requeueJobs
      [{ sourceType := "github", sourceUrl := "u", projectId := "a", status := BulkJobStatus.success, message := some "ok", generatedTitle := some "T" },
       { sourceType := "github", sourceUrl := "u", projectId := "b", status := BulkJobStatus.failed, message := some "boom" },
       { sourceType := "pdf", sourceUrl := "v", projectId := "c", status := BulkJobStatus.failed, message := some "err" }] true =
      [{ sourceType := "github", sourceUrl := "u", projectId := "a", status := BulkJobStatus.success, message := some "ok", generatedTitle := some "T" },
       { sourceType := "github", sourceUrl := "u", projectId := "b", status := BulkJobStatus.queued },
       { sourceType := "pdf", sourceUrl := "v", projectId := "c", status := BulkJobStatus.queued }] :=
  retry_failed_only_requeues _ _ _ rfl rfl rfl (by decide) (by decide)

/-- A pool step (pop or finish) never changes the number of workers. -/
theorem poolStep_workers_length {s t : PoolState} (h : PoolStep s t) :
    t.workers.length = s.workers.length := by
  cases h with
  | pop w j rest hw hidle hq => simp
  | finish w j hw hbusy => simp

/-- C6: in every state reachable during a batch run, the number of jobs
simultaneously running is bounded by the effective worker count
`max 1 (min 3 (min concurrency pending))`. -/
theorem poolRunning_le_workerCount (jobs : List String) (conc : Nat)
    (s : PoolState) (h : poolReachable jobs conc s) :
    runningCount s ≤ effectiveWorkerCount conc jobs.length := by
  have hlen : s.workers.length = effectiveWorkerCount conc jobs.length := by
    induction h with
    | refl => simp [initPool]
    | tail hsteps hstep ih =>
      rw [poolStep_workers_length hstep]
      exact ih
  calc runningCount s ≤ s.workers.length := by
        unfold runningCount
        exact List.length_filter_le _ _
    _ = _ := hlen

/-- Witness for C6: worker count 2, five queued jobs, one job popped and
running — at most 2 jobs can be running. -/
theorem poolRunning_le_workerCount_witness :
    runningCount
        { queue := ["b", "c", "d", "e"], workers := [some "a", none],
          done := [] } ≤ effectiveWorkerCount 2 5 ∧
    effectiveWorkerCount 2 5 = 2 :=
  ⟨poolRunning_le_workerCount ["a", "b", "c", "d", "e"] 2 _
    (Relation.ReflTransGen.tail Relation.ReflTransGen.refl
      (PoolStep.pop (initPool ["a", "b", "c", "d", "e"] 2) 0 "a"
        ["b", "c", "d", "e"] (by decide) (by decide) rfl)),
   by decide⟩
